import Mathlib

/-!
# Verification of the Gauss-Seidel solver `comp-math-lab1`

Shallow embedding of the Rust sources `src/solver.rs`, `src/input.rs` and
theorems settling the specification claims.

Modelling choices:
* `rust_decimal::Decimal` (exact decimal arithmetic, §4.1/§9 of the spec) is
  modelled by `ℚ`.  All operations the solver performs (`+`, `-`, `*`, `abs`,
  comparison) are exact on `Decimal`; division rounds only at the 28th
  significant digit, far below every tolerance appearing in the claims.
* `DMatrix<Decimal>` is modelled by its stored square dimension `n` together
  with its list of rows (`DMatrix::from_row_iterator(n, n, data)` stores
  `nrows = ncols = n`; `column_iter().count()` returns that stored `n`).
* `Result<T, E>` is `Except E T`; the `loop` in `Equation::solve` runs at most
  `max(max_iterations, 1)` times (`k` starts at `1` and the loop continues only
  while `k < max_iterations`), so it is modelled by structural recursion on the
  fuel `max_iterations - 1`.
-/

attribute [local semireducible] Rat.add Rat.sub Rat.mul Rat.inv

namespace CompMathLab1

instance {ε α : Type} [DecidableEq ε] [DecidableEq α] : DecidableEq (Except ε α) := fun a b =>
  match a, b with
  | .ok a, .ok b =>
    if h : a = b then .isTrue (by rw [h]) else .isFalse (by simp [h])
  | .error a, .error b =>
    if h : a = b then .isTrue (by rw [h]) else .isFalse (by simp [h])
  | .ok _, .error _ => .isFalse (by simp)
  | .error _, .ok _ => .isFalse (by simp)

/-- `solver.rs`: `pub enum ESolveError { Diverge }`. -/
inductive ESolveError where
  | Diverge
  deriving DecidableEq, Repr

/-- `solver.rs`: `pub struct Equation`.  The matrix is kept as its stored
square dimension `n` (both row and column count of the `DMatrix`) plus the
list of its rows. -/
structure Equation where
  n : Nat
  input_matrix : List (List ℚ)
  expression_rhs : List ℚ
  max_iterations : Nat
  epsilon : ℚ
  deriving DecidableEq, Repr

/-- Matrix entry `self.input_matrix[(i, j)]`. -/
def entry (eq : Equation) (i j : Nat) : ℚ :=
  (eq.input_matrix.getD i []).getD j 0

/-- Right-hand side entry `self.expression_rhs[i]`. -/
def rhs (eq : Equation) (i : Nat) : ℚ :=
  eq.expression_rhs.getD i 0

/-- Body of the `for i in 0..matrix_size` loop of `Equation::solve`: from the
current `(result_vector, delta)` pair process row `i`:
`s = Σ_{j ≠ i} matrix[(i,j)] * result_vector[j]` (inner `for j` loop with the
`if j == i { continue }` skip), `x = (rhs[i] - s) / matrix[(i,i)]`,
`d = |x - result_vector[i]|`, `if d > delta { delta = d }`,
`result_vector[i] = x`. -/
def rowStep (eq : Equation) (p : List ℚ × ℚ) (i : Nat) : List ℚ × ℚ :=
  let s := (List.range eq.n).foldl
    (fun s j => if j = i then s else s + entry eq i j * p.1.getD j 0) 0
  let x := (rhs eq i - s) / entry eq i i
  let d := |x - p.1.getD i 0|
  (p.1.set i x, if d > p.2 then d else p.2)

/-- One full sweep of `Equation::solve`: `delta` reset to `0`, then the rows
`i = 0, …, matrix_size - 1` processed in ascending order, updates to
`result_vector` visible immediately.  Returns the updated estimate vector and
the maximal per-row delta of the sweep. -/
def sweep (eq : Equation) (est : List ℚ) : List ℚ × ℚ :=
  (List.range eq.n).foldl (rowStep eq) (est, 0)

/-- The `loop` of `Equation::solve`.  `fuel` is the number of additional
sweeps still allowed after the current one (`max_iterations - k` in the Rust
code), `k` the index of the current sweep.  Returns the result together with
the number of sweeps performed. -/
def solveGo (eq : Equation) : Nat → List ℚ → Nat → Except ESolveError (List ℚ) × Nat
  | fuel, est, k =>
    let p := sweep eq est
    if p.2 < eq.epsilon then (.ok p.1, k)
    else
      match fuel with
      | 0 => (.error .Diverge, k)
      | fuel' + 1 => solveGo eq fuel' p.1 (k + 1)

/-- `DVector::from_element(matrix_size, dec!(1))`: the initial estimate. -/
def initialEstimate (eq : Equation) : List ℚ :=
  List.replicate eq.n 1

/-- `Equation::solve` together with the number of sweeps it performs
(`k` at the moment of return; `k` starts at `1`). -/
def solveWithCount (eq : Equation) : Except ESolveError (List ℚ) × Nat :=
  solveGo eq (eq.max_iterations - 1) (initialEstimate eq) 1

/-- `Equation::solve`. -/
def solve (eq : Equation) : Except ESolveError (List ℚ) :=
  (solveWithCount eq).1

/-- Number of sweeps `Equation::solve` performs before returning. -/
def sweepCount (eq : Equation) : Nat :=
  (solveWithCount eq).2

/-- `k`-fold iteration of `sweep` (estimate after `k` full sweeps starting
from `est`). -/
def iterSweep (eq : Equation) (est : List ℚ) : Nat → List ℚ
  | 0 => est
  | k + 1 => (sweep eq (iterSweep eq est k)).1

/-- Estimate vector after `k` full sweeps of `solve`. -/
def estAfter (eq : Equation) (k : Nat) : List ℚ :=
  iterSweep eq (initialEstimate eq) k

/-- Maximal per-row delta of sweep number `k + 1` of `solve`. -/
def deltaAt (eq : Equation) (k : Nat) : ℚ :=
  (sweep eq (estAfter eq k)).2

/-- `equation` with its `epsilon` field replaced (all other fields fixed). -/
def withEpsilon (eq : Equation) (e : ℚ) : Equation :=
  ⟨eq.n, eq.input_matrix, eq.expression_rhs, eq.max_iterations, e⟩

/-!
## Spec-side description of a sweep (§4.1 of the spec)

These definitions follow the *spec's words*, to be compared with the `sweep`
translated from the source: `s = Σ_{j≠i} coefficients[i][j] * estimate[j]`
over the current estimate, `x_i = (rhs[i] - s) / coefficients[i][i]`,
`delta_i = |x_i - estimate[i]|` against the prior value,
`max_delta = max(max_delta, delta_i)`, and `estimate[i] = x_i` written
immediately, rows processed in ascending order.
-/

/-- Spec formula for the updated value of row `i`:
`x_i = (rhs[i] - Σ_{j≠i} coefficients[i][j] * estimate[j]) / coefficients[i][i]`. -/
def specX (eq : Equation) (est : List ℚ) (i : Nat) : ℚ :=
  (rhs eq i -
      Finset.sum ((Finset.range eq.n).erase i) (fun j => entry eq i j * est.getD j 0)) /
    entry eq i i

/-- Spec formula for processing one row: write `x_i` immediately and track
`max_delta = max(max_delta, |x_i - estimate[i]|)`. -/
def specStep (eq : Equation) (p : List ℚ × ℚ) (i : Nat) : List ℚ × ℚ :=
  (p.1.set i (specX eq p.1 i), max p.2 |specX eq p.1 i - p.1.getD i 0|)

/-- A full sweep as the spec words it: rows `0, …, n-1` ascending, updates
visible within the same sweep. -/
def specSweep (eq : Equation) (est : List ℚ) : List ℚ × ℚ :=
  (List.range eq.n).foldl (specStep eq) (est, 0)

/-!
## Problem Builder (`input.rs`)

`try_non_interactive` (file/stdin I/O and JSON deserialisation) is outside the
model; `build_configuration` is modelled as a function of the parsed document
it returns.  A numeric-literal string is abstracted to its
`Decimal::from_str` outcome.
-/

/-- A numeric literal of the parsed input document, abstracted to its
`Decimal::from_str` outcome: `val q` models a string that parses to the
decimal `q`; `bad msg` models a string that `Decimal::from_str` rejects with
error message `msg` (e.g. a value with more precision than `Decimal` can
represent). -/
inductive Literal where
  | val (q : ℚ)
  | bad (msg : String)
  deriving DecidableEq, Repr

/-- `build_decimal_from_string` (`input.rs:19`): `Decimal::from_str(input)`. -/
def build_decimal_from_string : Literal → Except String ℚ
  | .val q => .ok q
  | .bad msg => .error msg

/-- `input.rs:15`: `const DECIMAL_PARSE_ERROR_MESSAGE` (panic message of the
`.expect` on the epsilon literal). -/
def DECIMAL_PARSE_ERROR_MESSAGE : String := "Can\x27t represent such precise value"

/-- `input.rs:16`: `const ZERO_ON_DIAGONAL_ERROR_MESSAGE`. -/
def ZERO_ON_DIAGONAL_ERROR_MESSAGE : String :=
  "Zero on diagonal detected! Expected non-zero value on diagonal!"

/-- `input.rs`: `pub struct WrongSize { actual, expected }`. -/
structure WrongSize where
  actual : Nat
  expected : Nat
  deriving DecidableEq, Repr

/-- `input.rs`: `pub enum MatrixSizeError`. -/
inductive MatrixSizeError where
  | WrongRowSize (size : WrongSize) (position : Nat)
  | WrongExpressionRightHandSide (size : WrongSize)
  | WrongRowsCount (size : WrongSize)
  | EmptyMatrix
  deriving DecidableEq, Repr

/-- `input.rs`: `pub struct PositionalError { row, column, message }`. -/
structure PositionalError where
  row : Nat
  column : Nat
  message : String
  deriving DecidableEq, Repr

/-- `input.rs`: `pub enum NonInteractiveError`.  The payloads of `ParseError`
(a `serde_json::Error`) and `IOError` (an `io::Error`) are modelled by their
display strings. -/
inductive NonInteractiveError where
  | MatrixSizeError (err : MatrixSizeError)
  | MatrixInputError (err : PositionalError)
  | RightHandSideError (position : Nat) (message : String)
  | NoInputProvided
  | ParseError (message : String)
  | IOError (message : String)
  deriving DecidableEq, Repr

/-- `input.rs`: `struct EquesionInput` (the JSON document after
deserialisation; numeric literals still strings). -/
structure EquesionInput where
  input_matrix : List (List Literal)
  expression_rhs : List Literal
  max_iterations : Nat
  epsilon : Literal
  deriving DecidableEq, Repr

/-- `compute_matrix_size` (`input.rs:85`): the square dimension is the maximal
row length; errors on an empty matrix, a row of deviating length (first such
row, 1-based position), a row count different from the dimension, and a
right-hand side of deviating length, in that order. -/
def compute_matrix_size (input_matrix : List (List Literal))
    (expression_rhs : List Literal) : Except MatrixSizeError Nat :=
  let row_sizes := input_matrix.map List.length
  match row_sizes.max? with
  | none => .error .EmptyMatrix
  | some matrix_size =>
    match row_sizes.enum.find? (fun p => p.2 != matrix_size) with
    | some incorrect_row =>
      .error (.WrongRowSize ⟨incorrect_row.2, matrix_size⟩ (incorrect_row.1 + 1))
    | none =>
      let rows_amount := row_sizes.length
      if rows_amount != matrix_size then
        .error (.WrongRowsCount ⟨rows_amount, matrix_size⟩)
      else if expression_rhs.length != matrix_size then
        .error (.WrongExpressionRightHandSide ⟨expression_rhs.length, matrix_size⟩)
      else
        .ok matrix_size

/-- `input.rs:28-42`: the enumerated, flattened matrix literals parsed and
collected into `Result<Vec<_>, _>`; the first parse failure becomes a
`PositionalError` with 1-based `row = index / matrix_size + 1` and
`column = index % matrix_size + 1`. -/
def parseMatrixLiterals (matrix_size : Nat) : Nat → List Literal → Except PositionalError (List ℚ)
  | _, [] => .ok []
  | index, lit :: rest =>
    match build_decimal_from_string lit with
    | .error msg => .error ⟨index / matrix_size + 1, index % matrix_size + 1, msg⟩
    | .ok q =>
      match parseMatrixLiterals matrix_size (index + 1) rest with
      | .error e => .error e
      | .ok qs => .ok (q :: qs)

/-- `input.rs:47-55`: the right-hand-side literals parsed and collected; the
first failure becomes `RightHandSideError(index + 1, message)`. -/
def parseRhsLiterals : Nat → List Literal → Except NonInteractiveError (List ℚ)
  | _, [] => .ok []
  | index, lit :: rest =>
    match build_decimal_from_string lit with
    | .error msg => .error (.RightHandSideError (index + 1) msg)
    | .ok q =>
      match parseRhsLiterals (index + 1) rest with
      | .error e => .error e
      | .ok qs => .ok (q :: qs)

/-- `DMatrix::from_row_iterator(ncols, nrows, data)` applied with equal
dimensions (`input.rs:43`): the row-major data cut into rows. -/
def rowsFromIterator (ncols : Nat) : Nat → List ℚ → List (List ℚ)
  | 0, _ => []
  | r + 1, data => data.take ncols :: rowsFromIterator ncols r (data.drop ncols)

/-- The `for i in 0..matrix_size` scan of `check_for_zeroes_on_diagonal`. -/
def checkDiagonalFrom (matrix : List (List ℚ)) : List Nat → Except PositionalError Unit
  | [] => .ok ()
  | i :: rest =>
    if (matrix.getD i []).getD i 0 = 0 then
      .error ⟨i, i, ZERO_ON_DIAGONAL_ERROR_MESSAGE⟩
    else
      checkDiagonalFrom matrix rest

/-- `check_for_zeroes_on_diagonal` (`input.rs:69`): reports the first zero
diagonal entry at its 0-based position `(i, i)`. -/
def check_for_zeroes_on_diagonal (matrix : List (List ℚ)) (matrix_size : Nat) :
    Except PositionalError Unit :=
  checkDiagonalFrom matrix (List.range matrix_size)

/-- Outcome of `build_configuration` on a parsed document: `Ok(Equation)`,
`Err(NonInteractiveError)`, or a panic (the `.expect` on the epsilon literal,
`input.rs:63`, aborts instead of returning). -/
inductive BuildOutcome where
  | ok (eq : Equation)
  | error (err : NonInteractiveError)
  | panicked (msg : String)
  deriving DecidableEq, Repr

/-- `build_configuration` (`input.rs:23`) after `try_non_interactive` has
produced the parsed document: compute the square dimension, parse the matrix
literals, build the matrix, check the diagonal, parse the right-hand side,
and finally parse epsilon — the latter through `.expect`, which panics on a
parse failure. -/
def build_configuration (parsed : EquesionInput) : BuildOutcome :=
  match compute_matrix_size parsed.input_matrix parsed.expression_rhs with
  | .error e => .error (.MatrixSizeError e)
  | .ok matrix_size =>
    match parseMatrixLiterals matrix_size 0 parsed.input_matrix.flatten with
    | .error e => .error (.MatrixInputError e)
    | .ok raw =>
      let matrix := rowsFromIterator matrix_size matrix_size raw
      match check_for_zeroes_on_diagonal matrix matrix_size with
      | .error e => .error (.MatrixInputError e)
      | .ok _ =>
        match parseRhsLiterals 0 parsed.expression_rhs with
        | .error e => .error e
        | .ok raw_expression_rhs =>
          match build_decimal_from_string parsed.epsilon with
          | .error _ => .panicked DECIMAL_PARSE_ERROR_MESSAGE
          | .ok eps =>
            .ok ⟨matrix_size, matrix, raw_expression_rhs, parsed.max_iterations, eps⟩

/-!
## Helper lemmas: one sweep agrees with the spec's row formula
-/

theorem foldl_skip_eq_sum_erase (f : Nat → ℚ) (i : Nat) :
    ∀ (n : Nat) (c : ℚ),
      (List.range n).foldl (fun s j => if j = i then s else s + f j) c =
        c + Finset.sum ((Finset.range n).erase i) f := by
  intro n
  induction n with
  | zero => intro c; simp
  | succ n ih =>
    intro c
    rw [List.range_succ, List.foldl_append]
    rcases eq_or_ne n i with h | h
    · subst h
      rw [Finset.range_succ, Finset.erase_insert Finset.not_mem_range_self]
      simpa using ih c
    · have hne : n ∉ (Finset.range n).erase i := fun hmem =>
        Finset.not_mem_range_self (Finset.mem_of_mem_erase hmem)
      rw [Finset.range_succ, Finset.erase_insert_of_ne h, Finset.sum_insert hne]
      simp only [List.foldl_cons, List.foldl_nil, if_neg h, ih c]
      ring

theorem rowStep_eq_specStep (eq : Equation) (p : List ℚ × ℚ) (i : Nat) :
    rowStep eq p i = specStep eq p i := by
  unfold rowStep specStep specX
  rw [foldl_skip_eq_sum_erase (fun j => entry eq i j * p.1.getD j 0) i eq.n 0, zero_add]
  refine Prod.ext rfl ?_
  dsimp only
  rcases le_or_lt (|(rhs eq i -
      Finset.sum ((Finset.range eq.n).erase i) fun j => entry eq i j * p.1.getD j 0) /
        entry eq i i - p.1.getD i 0|) p.2 with h | h
  · rw [if_neg (not_lt.2 h), max_eq_left h]
  · rw [if_pos h, max_eq_right h.le]

theorem sweep_eq_specSweep (eq : Equation) (est : List ℚ) :
    sweep eq est = specSweep eq est := by
  unfold sweep specSweep
  congr 1
  funext p i
  exact rowStep_eq_specStep eq p i

/-!
## Helper lemmas: the convergence loop
-/

theorem iterSweep_shift (eq : Equation) (est : List ℚ) :
    ∀ k : Nat, iterSweep eq (sweep eq est).1 k = iterSweep eq est (k + 1) := by
  intro k
  induction k with
  | zero => rfl
  | succ k ih => simp only [iterSweep, ih]

theorem solveGo_diverge (eq : Equation) :
    ∀ (fuel : Nat) (est : List ℚ) (k : Nat),
      (∀ j ≤ fuel, eq.epsilon ≤ (sweep eq (iterSweep eq est j)).2) →
      solveGo eq fuel est k = (.error .Diverge, k + fuel) := by
  intro fuel
  induction fuel with
  | zero =>
    intro est k h
    have h0 := h 0 (Nat.le_refl 0)
    simp only [iterSweep] at h0
    simp [solveGo, not_lt.2 h0]
  | succ fuel ih =>
    intro est k h
    have h0 := h 0 (Nat.zero_le _)
    simp only [iterSweep] at h0
    have hrec := ih (sweep eq est).1 (k + 1) (fun j hj => by
      rw [iterSweep_shift]
      exact h (j + 1) (Nat.succ_le_succ hj))
    simp only [solveGo, if_neg (not_lt.2 h0), hrec]
    refine Prod.ext rfl ?_
    simp
    omega

theorem solveGo_converge (eq : Equation) :
    ∀ (fuel : Nat) (est : List ℚ) (k j : Nat), j ≤ fuel →
      (sweep eq (iterSweep eq est j)).2 < eq.epsilon →
      (∀ i < j, eq.epsilon ≤ (sweep eq (iterSweep eq est i)).2) →
      solveGo eq fuel est k = (.ok (iterSweep eq est (j + 1)), k + j) := by
  intro fuel
  induction fuel with
  | zero =>
    intro est k j hj hconv _
    interval_cases j
    simp only [iterSweep] at hconv ⊢
    simp [solveGo, hconv]
  | succ fuel ih =>
    intro est k j hj hconv hmin
    match j with
    | 0 =>
      simp only [iterSweep] at hconv ⊢
      simp [solveGo, hconv]
    | j + 1 =>
      have h0 := hmin 0 (Nat.succ_pos j)
      simp only [iterSweep] at h0
      have hrec := ih (sweep eq est).1 (k + 1) j (Nat.le_of_succ_le_succ hj)
        (by rw [iterSweep_shift]; exact hconv)
        (fun i hi => by
          rw [iterSweep_shift]
          exact hmin (i + 1) (Nat.succ_lt_succ hi))
      simp only [solveGo, if_neg (not_lt.2 h0), hrec, iterSweep_shift]
      refine Prod.ext rfl ?_
      simp
      omega

theorem solveGo_count_le (eq : Equation) :
    ∀ (fuel : Nat) (est : List ℚ) (k : Nat), (solveGo eq fuel est k).2 ≤ k + fuel := by
  intro fuel
  induction fuel with
  | zero =>
    intro est k
    simp only [solveGo]
    split <;> simp
  | succ fuel ih =>
    intro est k
    simp only [solveGo]
    split
    · simp
    · calc (solveGo eq fuel (sweep eq est).1 (k + 1)).2 ≤ (k + 1) + fuel := ih _ _
        _ = k + (fuel + 1) := by omega

/-- Full characterization of a successful `solve`: it returns `v` exactly when
some sweep `k + 1` within the budget is the first whose maximal delta beats
the tolerance, and `v` is the estimate after that sweep. -/
theorem solve_ok_iff (eq : Equation) (v : List ℚ) :
    solve eq = .ok v ↔
      ∃ k, k ≤ eq.max_iterations - 1 ∧ (∀ j < k, eq.epsilon ≤ deltaAt eq j) ∧
        deltaAt eq k < eq.epsilon ∧ v = estAfter eq (k + 1) := by
  constructor
  · intro h
    by_cases hb : ∃ j, j ≤ eq.max_iterations - 1 ∧ deltaAt eq j < eq.epsilon
    · obtain ⟨j0, hj0, hconv0⟩ := hb
      have hex : ∃ j, deltaAt eq j < eq.epsilon := ⟨j0, hconv0⟩
      set k := Nat.find hex with hk
      have hkj : k ≤ j0 := Nat.find_min' hex hconv0
      have hkspec : deltaAt eq k < eq.epsilon := Nat.find_spec hex
      have hkmin : ∀ j < k, eq.epsilon ≤ deltaAt eq j := fun j hj =>
        not_lt.1 (Nat.find_min hex hj)
      have hsolve := solveGo_converge eq (eq.max_iterations - 1) (initialEstimate eq) 1 k
        (le_trans hkj hj0) hkspec hkmin
      have : solve eq = .ok (estAfter eq (k + 1)) := by
        unfold solve solveWithCount
        rw [hsolve]
        rfl
      rw [this] at h
      exact ⟨k, le_trans hkj hj0, hkmin, hkspec, (Except.ok.inj h).symm⟩
    · push_neg at hb
      have := solveGo_diverge eq (eq.max_iterations - 1) (initialEstimate eq) 1
        (fun j hj => hb j hj)
      unfold solve solveWithCount at h
      rw [this] at h
      exact absurd h (by simp)
  · rintro ⟨k, hk, hmin, hconv, rfl⟩
    have := solveGo_converge eq (eq.max_iterations - 1) (initialEstimate eq) 1 k hk hconv hmin
    unfold solve solveWithCount
    rw [this]
    rfl

/-- When `solve` succeeds at the first tolerant sweep `k + 1`, the sweep count
is `k + 1`. -/
theorem sweepCount_of_converge (eq : Equation) (k : Nat)
    (hk : k ≤ eq.max_iterations - 1) (hmin : ∀ j < k, eq.epsilon ≤ deltaAt eq j)
    (hconv : deltaAt eq k < eq.epsilon) : sweepCount eq = k + 1 := by
  have := solveGo_converge eq (eq.max_iterations - 1) (initialEstimate eq) 1 k hk hconv hmin
  unfold sweepCount solveWithCount
  rw [this]
  omega

/-- `solve` signals divergence exactly when no sweep within the budget meets
the tolerance. -/
theorem solve_diverge_iff (eq : Equation) :
    solve eq = .error .Diverge ↔
      ∀ j ≤ eq.max_iterations - 1, eq.epsilon ≤ deltaAt eq j := by
  constructor
  · intro h j hj
    by_contra hc
    push_neg at hc
    have hex : ∃ i, deltaAt eq i < eq.epsilon := ⟨j, hc⟩
    have hok : solve eq = .ok (estAfter eq (Nat.find hex + 1)) :=
      (solve_ok_iff eq _).2 ⟨Nat.find hex, le_trans (Nat.find_min' hex hc) hj,
        fun i hi => not_lt.1 (Nat.find_min hex hi), Nat.find_spec hex, rfl⟩
    rw [hok] at h
    exact absurd h (by simp)
  · intro h
    have := solveGo_diverge eq (eq.max_iterations - 1) (initialEstimate eq) 1 h
    unfold solve solveWithCount
    rw [this]

/-- On divergence the sweep count equals the full budget. -/
theorem sweepCount_of_diverge (eq : Equation)
    (h : ∀ j ≤ eq.max_iterations - 1, eq.epsilon ≤ deltaAt eq j) :
    sweepCount eq = 1 + (eq.max_iterations - 1) := by
  have := solveGo_diverge eq (eq.max_iterations - 1) (initialEstimate eq) 1 h
  unfold sweepCount solveWithCount
  rw [this]

theorem sweep_withEpsilon (eq : Equation) (e : ℚ) (est : List ℚ) :
    sweep (withEpsilon eq e) est = sweep eq est := by
  unfold sweep
  congr 1

theorem iterSweep_withEpsilon (eq : Equation) (e : ℚ) (est : List ℚ) :
    ∀ k, iterSweep (withEpsilon eq e) est k = iterSweep eq est k := by
  intro k
  induction k with
  | zero => rfl
  | succ k ih => simp only [iterSweep, ih, sweep_withEpsilon]

theorem deltaAt_withEpsilon (eq : Equation) (e : ℚ) (k : Nat) :
    deltaAt (withEpsilon eq e) k = deltaAt eq k := by
  unfold deltaAt estAfter
  rw [iterSweep_withEpsilon, sweep_withEpsilon]
  rfl

/-!
## Helper lemmas: the Problem Builder
-/

theorem all_of_enumFrom_all {α : Type} (p : α → Bool) :
    ∀ (l : List α) (s : Nat), (∀ x ∈ l.enumFrom s, ¬ p x.2) → ∀ a ∈ l, ¬ p a := by
  intro l
  induction l with
  | nil => intro s _ a ha; cases ha
  | cons b l ih =>
    intro s h a ha
    rcases List.mem_cons.1 ha with rfl | ha'
    · exact h (s, a) (List.mem_cons_self _ _)
    · exact ih (s + 1) (fun x hx => h x (List.mem_cons_of_mem _ hx)) a ha'

theorem compute_matrix_size_ok (m : List (List Literal)) (r : List Literal) (n : Nat)
    (h : compute_matrix_size m r = .ok n) :
    m.length = n ∧ 1 ≤ n ∧ (∀ row ∈ m, row.length = n) ∧ r.length = n := by
  unfold compute_matrix_size at h
  simp only [] at h
  split at h
  · cases h
  next matrix_size heqmax =>
    split at h
    · cases h
    next heqfind =>
      split at h
      · cases h
      next hcount =>
        split at h
        · cases h
        next hrhs =>
          cases h
          have hmnil : m ≠ [] := by
            intro hnil
            rw [hnil] at heqmax
            cases heqmax
          have hall : ∀ s ∈ m.map List.length, s = n := by
            have := all_of_enumFrom_all (fun s => s != n) (m.map List.length) 0
              (by
                intro x hx
                exact List.find?_eq_none.1 heqfind x hx)
            intro s hs
            simpa using this s hs
          have hcount' : (m.map List.length).length = n := by
            simpa using of_not_not (by simpa using hcount)
          refine ⟨by simpa using hcount', ?_, ?_, ?_⟩
          · rcases m with - | ⟨row, m'⟩
            · exact absurd rfl hmnil
            · have : (List.length row :: m'.map List.length).length = n := hcount'
              simp at this
              omega
          · intro row hrow
            exact hall row.length (List.mem_map_of_mem List.length hrow)
          · simpa using of_not_not (by simpa using hrhs)

theorem parseMatrixLiterals_ok_length (sz : Nat) :
    ∀ (lits : List Literal) (idx : Nat) (qs : List ℚ),
      parseMatrixLiterals sz idx lits = .ok qs → qs.length = lits.length := by
  intro lits
  induction lits with
  | nil => intro idx qs h; cases h; rfl
  | cons lit rest ih =>
    intro idx qs h
    unfold parseMatrixLiterals at h
    split at h
    · cases h
    · split at h
      · cases h
      next q _ qs' heq =>
        cases h
        simpa using ih (idx + 1) qs' heq

theorem parseRhsLiterals_ok_length :
    ∀ (lits : List Literal) (idx : Nat) (qs : List ℚ),
      parseRhsLiterals idx lits = .ok qs → qs.length = lits.length := by
  intro lits
  induction lits with
  | nil => intro idx qs h; cases h; rfl
  | cons lit rest ih =>
    intro idx qs h
    unfold parseRhsLiterals at h
    split at h
    · cases h
    · split at h
      · cases h
      next q _ qs' heq =>
        cases h
        simpa using ih (idx + 1) qs' heq

theorem rowsFromIterator_length (ncols : Nat) :
    ∀ (r : Nat) (data : List ℚ), (rowsFromIterator ncols r data).length = r := by
  intro r
  induction r with
  | zero => intro data; rfl
  | succ r ih => intro data; simp [rowsFromIterator, ih]

theorem rowsFromIterator_row_length (ncols : Nat) :
    ∀ (r : Nat) (data : List ℚ), data.length = r * ncols →
      ∀ row ∈ rowsFromIterator ncols r data, row.length = ncols := by
  intro r
  induction r with
  | zero => intro data _ row hrow; cases hrow
  | succ r ih =>
    intro data hlen row hrow
    have hcols : ncols ≤ data.length := by
      rw [hlen, Nat.succ_mul]
      exact Nat.le_add_left ncols (r * ncols)
    rcases List.mem_cons.1 hrow with rfl | hrow'
    · simpa using Nat.min_eq_left hcols
    · refine ih (data.drop ncols) ?_ row hrow'
      rw [List.length_drop, hlen, Nat.succ_mul]
      omega

theorem checkDiagonalFrom_ok (matrix : List (List ℚ)) :
    ∀ l, checkDiagonalFrom matrix l = .ok () →
      ∀ i ∈ l, (matrix.getD i []).getD i 0 ≠ 0 := by
  intro l
  induction l with
  | nil => intro _ i hi; cases hi
  | cons j rest ih =>
    intro h i hi
    unfold checkDiagonalFrom at h
    split at h
    · cases h
    next hj =>
      rcases List.mem_cons.1 hi with rfl | hi'
      · exact hj
      · exact ih h i hi'

theorem checkDiagonalFrom_first_zero (matrix : List (List ℚ)) (i : Nat)
    (hzero : (matrix.getD i []).getD i 0 = 0) :
    ∀ (l1 l2 : List Nat), (∀ j ∈ l1, (matrix.getD j []).getD j 0 ≠ 0) →
      checkDiagonalFrom matrix (l1 ++ i :: l2) =
        .error ⟨i, i, ZERO_ON_DIAGONAL_ERROR_MESSAGE⟩ := by
  intro l1
  induction l1 with
  | nil =>
    intro l2 _
    simp only [List.nil_append]
    unfold checkDiagonalFrom
    rw [if_pos hzero]
  | cons j l1' ih =>
    intro l2 hl1
    simp only [List.cons_append]
    unfold checkDiagonalFrom
    rw [if_neg (hl1 j (List.mem_cons_self _ _))]
    exact ih l2 (fun j' hj' => hl1 j' (List.mem_cons_of_mem _ hj'))

theorem range_split (i n : Nat) (h : i < n) :
    List.range n = List.range i ++ i :: List.range' (i + 1) (n - i - 1) := by
  have h1 : List.range' 0 i ++ List.range' i (n - i) = List.range' 0 n := by
    have := List.range'_append_1 0 i (n - i)
    rw [Nat.zero_add] at this
    rw [this]
    congr 1
    omega
  have h2 : List.range' i (n - i) = i :: List.range' (i + 1) (n - i - 1) := by
    obtain ⟨k, hk⟩ : ∃ k, n - i = k + 1 := ⟨n - i - 1, by omega⟩
    rw [hk, List.range'_succ, Nat.add_sub_cancel]
  rw [List.range_eq_range', ← h1, h2, ← List.range_eq_range']

/-!
## Claims
-/

/-- C1: `solve` initializes the estimate with every component equal to the
exact decimal `1`, and each sweep processes rows `i = 0..n-1` in ascending
order computing `x_i = (rhs[i] - s) / coefficients[i][i]` with
`s = Σ_{j≠i} coefficients[i][j] * estimate[j]`, where `estimate[j]` for
`j < i` is the value already updated in this same sweep (true Gauss-Seidel:
each update is written immediately and visible to subsequent rows). -/
theorem gauss_seidel_sweep_follows_spec (eq : Equation) (est : List ℚ) :
    solve eq = (solveGo eq (eq.max_iterations - 1) (List.replicate eq.n 1) 1).1 ∧
    (∀ j, j < eq.n → (initialEstimate eq).getD j 0 = 1) ∧
    sweep eq est = specSweep eq est := by
  refine ⟨rfl, ?_, sweep_eq_specSweep eq est⟩
  intro j hj
  simp [initialEstimate, List.getD_eq_getElem?_getD, List.getElem?_replicate, hj]

theorem gauss_seidel_sweep_follows_spec_witness :
    (initialEstimate ⟨2, [[4, 1], [2, 3]], [1, 2], 50, 1/10000⟩).getD 0 0 = 1 ∧
    sweep ⟨2, [[4, 1], [2, 3]], [1, 2], 50, 1/10000⟩ [1, 1] =
      specSweep ⟨2, [[4, 1], [2, 3]], [1, 2], 50, 1/10000⟩ [1, 1] :=
  ⟨(gauss_seidel_sweep_follows_spec ⟨2, [[4, 1], [2, 3]], [1, 2], 50, 1/10000⟩ [1, 1]).2.1 0
      (by decide),
   (gauss_seidel_sweep_follows_spec ⟨2, [[4, 1], [2, 3]], [1, 2], 50, 1/10000⟩ [1, 1]).2.2⟩

/-- C2: `solve` returns the current estimate as a successful solution exactly
when, after a full sweep, the maximal per-row absolute delta of that sweep
(each `delta_i = |x_i - prior estimate[i]|`, maximized over all rows, as the
second component of `specSweep` records) is strictly below `epsilon` — and no
earlier sweep already met the tolerance; this success is independent of how
many sweeps have elapsed, including on the very first sweep. -/
theorem converges_exactly_when_delta_below_epsilon (eq : Equation) (v : List ℚ) :
    (solve eq = .ok v ↔
      ∃ k, k ≤ eq.max_iterations - 1 ∧ (∀ j < k, eq.epsilon ≤ deltaAt eq j) ∧
        deltaAt eq k < eq.epsilon ∧ v = estAfter eq (k + 1)) ∧
    (∀ est, (sweep eq est).2 = (specSweep eq est).2) ∧
    (deltaAt eq 0 < eq.epsilon → solve eq = .ok (estAfter eq 1) ∧ sweepCount eq = 1) := by
  refine ⟨solve_ok_iff eq v, fun est => by rw [sweep_eq_specSweep], fun h0 => ?_⟩
  have hvac : ∀ j < 0, eq.epsilon ≤ deltaAt eq j := fun j hj => absurd hj (Nat.not_lt_zero j)
  exact ⟨(solve_ok_iff eq _).2 ⟨0, Nat.zero_le _, hvac, h0, rfl⟩,
    sweepCount_of_converge eq 0 (Nat.zero_le _) hvac h0⟩

theorem converges_exactly_when_delta_below_epsilon_witness :
    solve ⟨1, [[2]], [2], 7, 1⟩ = .ok (estAfter ⟨1, [[2]], [2], 7, 1⟩ 1) ∧
    sweepCount ⟨1, [[2]], [2], 7, 1⟩ = 1 :=
  (converges_exactly_when_delta_below_epsilon ⟨1, [[2]], [2], 7, 1⟩ []).2.2 (by decide)

/-- C3: with a positive iteration cap, `solve` returns the divergence signal
if and only if every one of the first `max_iterations` sweeps fails the
tolerance test, and in that case the sweep count at return is exactly
`max_iterations` — never less. -/
theorem diverges_exactly_at_iteration_cap (eq : Equation) (hpos : 0 < eq.max_iterations) :
    (solve eq = .error .Diverge ↔ ∀ k < eq.max_iterations, eq.epsilon ≤ deltaAt eq k) ∧
    (solve eq = .error .Diverge → sweepCount eq = eq.max_iterations) := by
  have hiff : (∀ j ≤ eq.max_iterations - 1, eq.epsilon ≤ deltaAt eq j) ↔
      ∀ k < eq.max_iterations, eq.epsilon ≤ deltaAt eq k := by
    constructor
    · intro h k hk
      exact h k (by omega)
    · intro h j hj
      exact h j (by omega)
  constructor
  · rw [solve_diverge_iff]
    exact hiff
  · intro hdiv
    rw [sweepCount_of_diverge eq ((solve_diverge_iff eq).1 hdiv)]
    omega

theorem diverges_exactly_at_iteration_cap_witness :
    sweepCount ⟨1, [[1]], [0], 2, 0⟩ = 2 :=
  (diverges_exactly_at_iteration_cap ⟨1, [[1]], [0], 2, 0⟩ (by decide)).2 (by decide)

theorem withEpsilon_epsilon (eq : Equation) (e : ℚ) : (withEpsilon eq e).epsilon = e := rfl

theorem withEpsilon_max_iterations (eq : Equation) (e : ℚ) :
    (withEpsilon eq e).max_iterations = eq.max_iterations := rfl

theorem estAfter_withEpsilon (eq : Equation) (e : ℚ) (k : Nat) :
    estAfter (withEpsilon eq e) k = estAfter eq k := by
  unfold estAfter
  rw [iterSweep_withEpsilon]
  rfl

/-- C7: for a fixed matrix, right-hand side and iteration cap on which `solve`
converges, a smaller tolerance never needs fewer sweeps: if `e1 ≤ e2` and
`solve` converges under `e1`, it also converges under `e2` and its sweep
count under `e2` is at most the one under `e1`. -/
theorem tolerance_monotonicity (eq : Equation) (e1 e2 : ℚ) (h12 : e1 ≤ e2)
    (h1 : ∃ v, solve (withEpsilon eq e1) = .ok v) :
    (∃ w, solve (withEpsilon eq e2) = .ok w) ∧
    sweepCount (withEpsilon eq e2) ≤ sweepCount (withEpsilon eq e1) := by
  obtain ⟨v, hv⟩ := h1
  obtain ⟨k1, hk1, hmin1, hconv1, -⟩ := (solve_ok_iff _ v).1 hv
  rw [withEpsilon_max_iterations] at hk1
  rw [deltaAt_withEpsilon, withEpsilon_epsilon] at hconv1
  simp only [deltaAt_withEpsilon, withEpsilon_epsilon] at hmin1
  have hex2 : ∃ k, deltaAt eq k < e2 := ⟨k1, lt_of_lt_of_le hconv1 h12⟩
  have hk2le : Nat.find hex2 ≤ k1 := Nat.find_min' hex2 (lt_of_lt_of_le hconv1 h12)
  have hk2B : Nat.find hex2 ≤ (withEpsilon eq e2).max_iterations - 1 := by
    rw [withEpsilon_max_iterations]
    omega
  have hmin2 : ∀ j < Nat.find hex2,
      (withEpsilon eq e2).epsilon ≤ deltaAt (withEpsilon eq e2) j := fun j hj => by
    rw [deltaAt_withEpsilon, withEpsilon_epsilon]
    exact not_lt.1 (Nat.find_min hex2 hj)
  have hconv2 : deltaAt (withEpsilon eq e2) (Nat.find hex2) < (withEpsilon eq e2).epsilon := by
    rw [deltaAt_withEpsilon, withEpsilon_epsilon]
    exact Nat.find_spec hex2
  refine ⟨⟨estAfter (withEpsilon eq e2) (Nat.find hex2 + 1), ?_⟩, ?_⟩
  · exact (solve_ok_iff _ _).2 ⟨Nat.find hex2, hk2B, hmin2, hconv2, rfl⟩
  · have hc2 : sweepCount (withEpsilon eq e2) = Nat.find hex2 + 1 :=
      sweepCount_of_converge _ _ hk2B hmin2 hconv2
    have hc1 : sweepCount (withEpsilon eq e1) = k1 + 1 := by
      refine sweepCount_of_converge _ k1 ?_ ?_ ?_
      · rw [withEpsilon_max_iterations]
        exact hk1
      · intro j hj
        rw [deltaAt_withEpsilon, withEpsilon_epsilon]
        exact hmin1 j hj
      · rw [deltaAt_withEpsilon, withEpsilon_epsilon]
        exact hconv1
    rw [hc1, hc2]
    omega

theorem tolerance_monotonicity_witness :
    (∃ w, solve (withEpsilon ⟨1, [[1]], [0], 5, 0⟩ 1) = .ok w) ∧
    sweepCount (withEpsilon ⟨1, [[1]], [0], 5, 0⟩ 1) ≤
      sweepCount (withEpsilon ⟨1, [[1]], [0], 5, 0⟩ (1/2)) :=
  tolerance_monotonicity ⟨1, [[1]], [0], 5, 0⟩ (1/2) 1 (by decide) ⟨[0], by decide⟩

/-- C8: for a 1×1 system `[[c]] · x = [r]` with `c ≠ 0`, the first sweep sets
the estimate to the exact value `r / c`, and whenever `|r/c - 1| < epsilon`
the solver returns `[r / c]` as a converged solution after that first
sweep. -/
theorem single_unknown_identity (c r e : ℚ) (cap : Nat) (hc : c ≠ 0)
    (h : |r / c - 1| < e) :
    (sweep ⟨1, [[c]], [r], cap, e⟩ (initialEstimate ⟨1, [[c]], [r], cap, e⟩)).1 = [r / c] ∧
    solve ⟨1, [[c]], [r], cap, e⟩ = .ok [r / c] ∧
    sweepCount ⟨1, [[c]], [r], cap, e⟩ = 1 := by
  have hsweep : sweep ⟨1, [[c]], [r], cap, e⟩ [1] = ([r / c], |r / c - 1|) := by
    have hr : List.range 1 = [0] := rfl
    unfold sweep rowStep entry rhs
    simp [hr]
    intro h0
    rw [h0, abs_zero]
  have hinit : initialEstimate ⟨1, [[c]], [r], cap, e⟩ = [1] := rfl
  have hd0 : deltaAt ⟨1, [[c]], [r], cap, e⟩ 0 = |r / c - 1| := by
    unfold deltaAt estAfter iterSweep
    rw [hinit, hsweep]
  have hest1 : estAfter ⟨1, [[c]], [r], cap, e⟩ 1 = [r / c] := by
    unfold estAfter iterSweep iterSweep
    rw [hinit, hsweep]
  have hvac : ∀ j < 0, (⟨1, [[c]], [r], cap, e⟩ : Equation).epsilon ≤
      deltaAt ⟨1, [[c]], [r], cap, e⟩ j := fun j hj => absurd hj (Nat.not_lt_zero j)
  refine ⟨by rw [hinit, hsweep], ?_, ?_⟩
  · exact (solve_ok_iff _ _).2 ⟨0, Nat.zero_le _, hvac, by rw [hd0]; exact h, hest1.symm⟩
  · exact sweepCount_of_converge _ 0 (Nat.zero_le _) hvac (by rw [hd0]; exact h)

theorem single_unknown_identity_witness :
    solve ⟨1, [[2]], [1], 3, 1⟩ = .ok [1 / 2] ∧ sweepCount ⟨1, [[2]], [1], 3, 1⟩ = 1 :=
  ⟨(single_unknown_identity 2 1 1 3 (by decide) (by decide)).2.1,
   (single_unknown_identity 2 1 1 3 (by decide) (by decide)).2.2⟩

/-- C9 counterexample: on `coefficients = [[4,1],[2,3]]`, `rhs = [1,2]`,
`max_iterations = 50`, `epsilon = 0.0001` the solver does converge, but the
returned vector is not approximately `[0.0909, 0.6061]`: its components
differ from those values by more than `0.0085` and `0.0055` respectively —
two orders of magnitude above the tolerance (the exact solution of
`4x+y=1, 2x+3y=2` is `[0.1, 0.6]`, not `[0.0909, 0.6061]`). -/
theorem concrete_scenario_not_near_0909 :
    (solve ⟨2, [[4, 1], [2, 3]], [1, 2], 50, 1/10000⟩).toOption.isSome = true ∧
    |((solve ⟨2, [[4, 1], [2, 3]], [1, 2], 50, 1/10000⟩).toOption.getD []).getD 0 0 -
        909/10000| > 17/2000 ∧
    |((solve ⟨2, [[4, 1], [2, 3]], [1, 2], 50, 1/10000⟩).toOption.getD []).getD 1 0 -
        6061/10000| > 11/2000 := by decide

/-- C9 amended: on `coefficients = [[4,1],[2,3]]`, `rhs = [1,2]`,
`max_iterations = 50`, `epsilon = 0.0001`, `solve` returns a converged
solution (not the divergence signal) approximately equal to `[0.1, 0.6]`,
the solution of `4x+y=1, 2x+3y=2`; the exact returned vector is
`[1555/15552, 13997/23328]`, within `0.0001` of `[1/10, 3/5]`. -/
theorem concrete_scenario_converges_near_solution :
    solve ⟨2, [[4, 1], [2, 3]], [1, 2], 50, 1/10000⟩ = .ok [1555/15552, 13997/23328] ∧
    |(1555 : ℚ)/15552 - 1/10| < 1/10000 ∧
    |(13997 : ℚ)/23328 - 3/5| < 1/10000 := by decide

/-- C10: `solve` always terminates, performing at most
`max(max_iterations, 1)` full sweeps, and returns either the converged
estimate of its last sweep or the divergence signal; in particular, when
`max_iterations = 0` it still performs exactly one full sweep. -/
theorem terminates_within_cap (eq : Equation) :
    sweepCount eq ≤ max eq.max_iterations 1 ∧
    (solve eq = .ok (estAfter eq (sweepCount eq)) ∨
      (solve eq = .error .Diverge ∧ sweepCount eq = max eq.max_iterations 1)) ∧
    (eq.max_iterations = 0 → sweepCount eq = 1) := by
  by_cases hb : ∃ j, j ≤ eq.max_iterations - 1 ∧ deltaAt eq j < eq.epsilon
  · obtain ⟨j0, hj0, hconv0⟩ := hb
    have hex : ∃ j, deltaAt eq j < eq.epsilon := ⟨j0, hconv0⟩
    have hkB : Nat.find hex ≤ eq.max_iterations - 1 := le_trans (Nat.find_min' hex hconv0) hj0
    have hmin : ∀ j < Nat.find hex, eq.epsilon ≤ deltaAt eq j := fun j hj =>
      not_lt.1 (Nat.find_min hex hj)
    have hcount : sweepCount eq = Nat.find hex + 1 :=
      sweepCount_of_converge eq _ hkB hmin (Nat.find_spec hex)
    have hok : solve eq = .ok (estAfter eq (Nat.find hex + 1)) :=
      (solve_ok_iff eq _).2 ⟨Nat.find hex, hkB, hmin, Nat.find_spec hex, rfl⟩
    refine ⟨by rw [hcount]; omega, Or.inl (by rw [hcount]; exact hok), fun h0 => ?_⟩
    rw [hcount]
    omega
  · push_neg at hb
    have hall : ∀ j ≤ eq.max_iterations - 1, eq.epsilon ≤ deltaAt eq j := fun j hj => hb j hj
    have hdiv : solve eq = .error .Diverge := (solve_diverge_iff eq).2 hall
    have hcount := sweepCount_of_diverge eq hall
    refine ⟨by rw [hcount]; omega, Or.inr ⟨hdiv, by rw [hcount]; omega⟩, fun h0 => ?_⟩
    rw [hcount]
    omega

theorem terminates_within_cap_witness :
    sweepCount ⟨1, [[1]], [0], 0, 1⟩ ≤ max 0 1 ∧ sweepCount ⟨1, [[1]], [0], 0, 1⟩ = 1 :=
  ⟨(terminates_within_cap ⟨1, [[1]], [0], 0, 1⟩).1,
   (terminates_within_cap ⟨1, [[1]], [0], 0, 1⟩).2.2 rfl⟩

/-- C4 (documents the code bug): an unparsable matrix literal or
right-hand-side literal produces a structured error as claimed, but an
unparsable `epsilon` literal makes `build_configuration` panic through
`.expect` (`input.rs:63`) instead of returning a `BuildError`. -/
theorem unrepresentable_epsilon_panics :
    build_configuration ⟨[[.val 1]], [.val 1], 1, .bad "invalid decimal"⟩ =
      .panicked DECIMAL_PARSE_ERROR_MESSAGE ∧
    build_configuration ⟨[[.bad "invalid decimal"]], [.val 1], 1, .val (1/10)⟩ =
      .error (.MatrixInputError ⟨1, 1, "invalid decimal"⟩) ∧
    build_configuration ⟨[[.val 1]], [.bad "invalid decimal"], 1, .val (1/10)⟩ =
      .error (.RightHandSideError 1 "invalid decimal") := by decide

/-- C5: whenever `build_configuration` returns `Ok(equation)`, the produced
`Equation` satisfies the Data Model invariants: square `n × n` matrix with
`n ≥ 1`, right-hand side of length `n`, and every diagonal entry
non-zero. -/
theorem build_ok_satisfies_invariants (parsed : EquesionInput) (eq : Equation)
    (h : build_configuration parsed = .ok eq) :
    1 ≤ eq.n ∧ eq.input_matrix.length = eq.n ∧
    (∀ row ∈ eq.input_matrix, row.length = eq.n) ∧
    eq.expression_rhs.length = eq.n ∧
    (∀ i < eq.n, entry eq i i ≠ 0) := by
  unfold build_configuration at h
  split at h
  · cases h
  next n hsize =>
    split at h
    · cases h
    next raw hparse =>
      simp only [] at h
      split at h
      · cases h
      next u hcheck =>
        split at h
        · cases h
        next rhsv hrhs =>
          split at h
          · cases h
          next eps heps =>
            cases h
            obtain ⟨hmlen, hn1, hrows, hrlen⟩ := compute_matrix_size_ok _ _ _ hsize
            have hrawlen : raw.length = n * n := by
              rw [parseMatrixLiterals_ok_length n _ 0 raw hparse, List.length_flatten]
              have hrepl : parsed.input_matrix.map List.length = List.replicate n n := by
                rw [List.eq_replicate_iff]
                refine ⟨by simpa using hmlen, ?_⟩
                intro b hb
                obtain ⟨row, hrow, rfl⟩ := List.mem_map.1 hb
                exact hrows row hrow
              rw [hrepl, List.sum_replicate, smul_eq_mul]
            refine ⟨hn1, rowsFromIterator_length n n raw, ?_, ?_, ?_⟩
            · exact rowsFromIterator_row_length n n raw hrawlen
            · rw [parseRhsLiterals_ok_length _ 0 rhsv hrhs]
              exact hrlen
            · intro i hi
              cases u
              exact checkDiagonalFrom_ok _ _ hcheck i (List.mem_range.2 hi)

theorem build_ok_satisfies_invariants_witness :
    1 ≤ (Equation.mk 2 [[2, 1], [1, 3]] [1, 2] 10 (1/10)).n ∧
    (Equation.mk 2 [[2, 1], [1, 3]] [1, 2] 10 (1/10)).input_matrix.length =
      (Equation.mk 2 [[2, 1], [1, 3]] [1, 2] 10 (1/10)).n ∧
    (∀ row ∈ (Equation.mk 2 [[2, 1], [1, 3]] [1, 2] 10 (1/10)).input_matrix,
      row.length = (Equation.mk 2 [[2, 1], [1, 3]] [1, 2] 10 (1/10)).n) ∧
    (Equation.mk 2 [[2, 1], [1, 3]] [1, 2] 10 (1/10)).expression_rhs.length =
      (Equation.mk 2 [[2, 1], [1, 3]] [1, 2] 10 (1/10)).n ∧
    (∀ i < (Equation.mk 2 [[2, 1], [1, 3]] [1, 2] 10 (1/10)).n,
      entry (Equation.mk 2 [[2, 1], [1, 3]] [1, 2] 10 (1/10)) i i ≠ 0) :=
  build_ok_satisfies_invariants
    ⟨[[.val 2, .val 1], [.val 1, .val 3]], [.val 1, .val 2], 10, .val (1/10)⟩
    (Equation.mk 2 [[2, 1], [1, 3]] [1, 2] 10 (1/10)) (by decide)

/-- C6: a parsed input whose (well-shaped, parseable) coefficient matrix has a
zero diagonal entry is rejected by `build_configuration` with a positional
error naming the first zero diagonal position `(i, i)` and the
zero-on-diagonal reason, and is never forwarded to the Solver as an
`Equation`. -/
theorem zero_diagonal_rejected (parsed : EquesionInput) (n i : Nat) (raw : List ℚ)
    (hsize : compute_matrix_size parsed.input_matrix parsed.expression_rhs = .ok n)
    (hparse : parseMatrixLiterals n 0 parsed.input_matrix.flatten = .ok raw)
    (hi : i < n)
    (hzero : ((rowsFromIterator n n raw).getD i []).getD i 0 = 0)
    (hmin : ∀ j < i, ((rowsFromIterator n n raw).getD j []).getD j 0 ≠ 0) :
    build_configuration parsed =
      .error (.MatrixInputError ⟨i, i, ZERO_ON_DIAGONAL_ERROR_MESSAGE⟩) ∧
    ∀ eq, build_configuration parsed ≠ .ok eq := by
  have hcheck : check_for_zeroes_on_diagonal (rowsFromIterator n n raw) n =
      .error ⟨i, i, ZERO_ON_DIAGONAL_ERROR_MESSAGE⟩ := by
    unfold check_for_zeroes_on_diagonal
    rw [range_split i n hi]
    exact checkDiagonalFrom_first_zero _ i hzero (List.range i) _
      (fun j hj => hmin j (List.mem_range.1 hj))
  have hbuild : build_configuration parsed =
      .error (.MatrixInputError ⟨i, i, ZERO_ON_DIAGONAL_ERROR_MESSAGE⟩) := by
    unfold build_configuration
    rw [hsize]
    simp only []
    rw [hparse]
    simp only []
    rw [hcheck]
  exact ⟨hbuild, fun eq hok => by rw [hbuild] at hok; cases hok⟩

theorem zero_diagonal_rejected_witness :
    build_configuration
        ⟨[[.val 0, .val 1], [.val 1, .val 0]], [.val 1, .val 1], 10, .val (1/10)⟩ =
      .error (.MatrixInputError ⟨0, 0, ZERO_ON_DIAGONAL_ERROR_MESSAGE⟩) :=
  (zero_diagonal_rejected
    ⟨[[.val 0, .val 1], [.val 1, .val 0]], [.val 1, .val 1], 10, .val (1/10)⟩
    2 0 [0, 1, 1, 0] (by decide) (by decide) (by decide) (by decide)
    (fun j hj => absurd hj (Nat.not_lt_zero j))).1

end CompMathLab1
